import Mathlib

/-!
Shallow embedding of the Mandelbrot terminal viewer (src/main.rs).

The Rust program's `f64` arithmetic is modelled over `ℚ`: all operations the
program performs on the modelled paths (`* 1.5`, `/ 1.5`, `0.1 / zoom`,
squared-magnitude comparisons against `4.0`, and the `ratio * 8` bucket)
are field operations, mirrored exactly.  The one place the program can leave
the finite domain is the classifier's division when `max_iterations = 0`:
there IEEE 754 produces `+inf` (or NaN for `0.0 / 0.0`), so the value fed to
the `as u32` cast is modelled by `F64Val` (finite exact rational, `+inf`, or
NaN) and the cast by Rust's saturating float-to-integer conversion.  `u32`
counters are modelled as `ℕ` with wrap-around `% 2^32` where addition could
overflow; Rust `saturating_sub` coincides with truncated `ℕ` subtraction.
-/

namespace Mandelbrot

/-- The subset of terminal colors the program uses (from `ratatui::style::Color`). -/
inductive Color where
  | black
  | blue
  | lightBlue
  | cyan
  | green
  | yellow
  | lightRed
  | red
  | magenta
  | white
deriving DecidableEq, Repr

/-- The `App` struct: viewport state (zoom, center, iteration budget). -/
structure App where
  zoom : ℚ
  center_x : ℚ
  center_y : ℚ
  max_iterations : ℕ
deriving DecidableEq, Repr

/-- `impl Default for App`: zoom 1.0, center (-0.5, 0.0), 100 iterations. -/
def appDefault : App :=
  { zoom := 1.0, center_x := -0.5, center_y := 0.0, max_iterations := 100 }

/-- `App::zoom_in`: `self.zoom *= 1.5`. -/
def App.zoom_in (a : App) : App := { a with zoom := a.zoom * 1.5 }

/-- `App::zoom_out`: `self.zoom /= 1.5`. -/
def App.zoom_out (a : App) : App := { a with zoom := a.zoom / 1.5 }

/-- `App::move_left`: `self.center_x -= 0.1 / self.zoom`. -/
def App.move_left (a : App) : App := { a with center_x := a.center_x - 0.1 / a.zoom }

/-- `App::move_right`: `self.center_x += 0.1 / self.zoom`. -/
def App.move_right (a : App) : App := { a with center_x := a.center_x + 0.1 / a.zoom }

/-- `App::move_up`: `self.center_y -= 0.1 / self.zoom`. -/
def App.move_up (a : App) : App := { a with center_y := a.center_y - 0.1 / a.zoom }

/-- `App::move_down`: `self.center_y += 0.1 / self.zoom`. -/
def App.move_down (a : App) : App := { a with center_y := a.center_y + 0.1 / a.zoom }

/-- The `u32` modulus, for faithful wrap-around on addition. -/
def u32Mod : ℕ := 2 ^ 32

/-- `App::increase_iterations`: `self.max_iterations = (self.max_iterations + 20).min(500)`. -/
def App.increase_iterations (a : App) : App :=
  { a with max_iterations := ((a.max_iterations + 20) % u32Mod).min 500 }

/-- `App::decrease_iterations`:
`self.max_iterations = (self.max_iterations.saturating_sub(20)).max(20)`. -/
def App.decrease_iterations (a : App) : App :=
  { a with max_iterations := (a.max_iterations - 20).max 20 }

/-- Squared magnitude `z.0 * z.0 + z.1 * z.1` of a complex point. -/
def sqAbs (z : ℚ × ℚ) : ℚ := z.1 * z.1 + z.2 * z.2

/-- One Mandelbrot update `z ← z*z + c`:
`(z.0 * z.0 - z.1 * z.1 + c.0, 2.0 * z.0 * z.1 + c.1)`. -/
def mstep (c z : ℚ × ℚ) : ℚ × ℚ :=
  (z.1 * z.1 - z.2 * z.2 + c.1, 2 * z.1 * z.2 + c.2)

/-- The loop body of `mandelbrot_iterations`: `i` is the current loop index,
`fuel` the remaining iterations (`max_iter - i`). -/
def mandelbrotGo (c z : ℚ × ℚ) (i fuel : ℕ) : ℕ :=
  match fuel with
  | 0 => i
  | fuel + 1 =>
    if z.1 * z.1 + z.2 * z.2 > 4 then i
    else mandelbrotGo c (mstep c z) (i + 1) fuel

/-- `fn mandelbrot_iterations(c: (f64, f64), max_iter: u32) -> u32`. -/
def mandelbrot_iterations (c : ℚ × ℚ) (max_iter : ℕ) : ℕ :=
  mandelbrotGo c (0, 0) 0 max_iter

/-- The orbit of `0` under `z ← z*z + c`: `orbit c n` is `z` after `n` updates,
i.e. the value tested at loop index `n`. -/
def orbit (c : ℚ × ℚ) : ℕ → ℚ × ℚ
  | 0 => (0, 0)
  | n + 1 => mstep c (orbit c n)

/-- `u32::MAX`, the saturation bound of Rust's float-to-`u32` cast. -/
def u32Max : ℕ := 2 ^ 32 - 1

/-- Model of the `f64` values that can reach the classifier's `as u32` cast:
a finite value (exact, as a rational), `+inf`, or NaN.  On the modelled path
the numerator and divisor are `u32` casts, so a finite quotient is
nonnegative and exact alternatives only arise from a zero divisor. -/
inductive F64Val where
  | finite (q : ℚ)
  | posInf
  | nan
deriving DecidableEq, Repr

/-- The `f64` value of `(iterations as f64 / max_iterations as f64) * 8.0`:
for a nonzero divisor the quotient and product are modelled exactly in `ℚ`;
for a zero divisor IEEE 754 gives `+inf` on a positive numerator (and
`inf * 8.0 = inf`) and NaN for `0.0 / 0.0` (and `NaN * 8.0 = NaN`). -/
def scaledRatio (iterations max_iterations : ℕ) : F64Val :=
  if max_iterations = 0 then
    if iterations = 0 then .nan else .posInf
  else
    .finite (((iterations : ℚ) / (max_iterations : ℚ)) * 8)

/-- Rust `expr as u32` on an `f64`: truncate toward zero saturating into
`[0, u32::MAX]`; `+inf` saturates to `u32::MAX` and NaN casts to 0.  For a
nonnegative finite value truncation is the floor; `Int.toNat` clamps the
(unreachable here) negative side to 0 exactly as the cast does. -/
def f64ToU32 : F64Val → ℕ
  | .finite q => min (Rat.floor q).toNat u32Max
  | .posInf => u32Max
  | .nan => 0

/-- `fn iteration_to_color(iterations: u32, max_iterations: u32) -> Color`. -/
def iteration_to_color (iterations max_iterations : ℕ) : Color :=
  if iterations = max_iterations then
    Color.black
  else
    match f64ToU32 (scaledRatio iterations max_iterations) with
    | 0 => Color.blue
    | 1 => Color.lightBlue
    | 2 => Color.cyan
    | 3 => Color.green
    | 4 => Color.yellow
    | 5 => Color.lightRed
    | 6 => Color.red
    | 7 => Color.magenta
    | _ => Color.white

/-- The 8-entry escape palette in source order (spec §4.2), excluding the
in-set color (black) and the fallback (white). -/
def palette : List Color :=
  [Color.blue, Color.lightBlue, Color.cyan, Color.green,
   Color.yellow, Color.lightRed, Color.red, Color.magenta]

/-- The color bucket `(ratio * 8.0) as u32` the classifier matches on:
the floor of the scaled ratio under Rust's saturating cast, `u32::MAX`
when the division by zero produced `+inf`. -/
def bucket (iterations max_iterations : ℕ) : ℕ :=
  f64ToU32 (scaledRatio iterations max_iterations)

/-- The key identities the dispatch in `run_app` distinguishes
(`crossterm::event::KeyCode`): characters, the four arrows, anything else. -/
inductive KeyCode where
  | char (c : Char)
  | left
  | right
  | up
  | down
  | other
deriving DecidableEq, Repr

/-- A terminal event: a key press, or any non-key event (resize, mouse, ...). -/
inductive TermEvent where
  | key (code : KeyCode)
  | nonKey
deriving DecidableEq, Repr

/-- Outcome of one dispatch step of `run_app`'s loop: `quit` models
`return Ok(())`; `running a` models continuing the loop with state `a`. -/
inductive StepResult where
  | quit
  | running (app : App)
deriving DecidableEq, Repr

/-- The `match key.code` dispatch inside `run_app` (src/main.rs lines 136-147). -/
def handleKey (app : App) (code : KeyCode) : StepResult :=
  match code with
  | .char 'q' => .quit
  | .char '+' | .char '=' => .running app.zoom_in
  | .char '-' => .running app.zoom_out
  | .left | .char 'h' => .running app.move_left
  | .right | .char 'l' => .running app.move_right
  | .up | .char 'k' => .running app.move_up
  | .down | .char 'j' => .running app.move_down
  | .char 'i' => .running app.increase_iterations
  | .char 'd' => .running app.decrease_iterations
  | _ => .running app

/-- Event handling of one loop tick: `if let Event::Key(key) = event::read()?`
dispatches key events and ignores every other event kind. -/
def handleEvent (app : App) (e : TermEvent) : StepResult :=
  match e with
  | .key code => handleKey app code
  | .nonKey => .running app

/-- The fallible steps of `main`, each an `io::Result`: terminal setup
(`enable_raw_mode`, `execute!(EnterAlternateScreen, ...)`, `Terminal::new`),
the `run_app` control loop, and terminal restoration (`disable_raw_mode`,
`execute!(LeaveAlternateScreen, ...)`, `show_cursor`).  `mainModel` returns
the process exit code (`0` iff `main` returns `Ok`) paired with the lines
`main` itself prints.  It mirrors `main`'s control flow: on setup failure `?`
propagates at once; otherwise `run_app`'s result is stored in `res`,
restoration runs next (its failures propagate via `?` before `res` is
examined), and only then is `res` inspected — an `Err` is printed with
`println!("{err:?}")` and `main` still ends with `Ok(())`. -/
def mainModel (setup run restore : Except String Unit) : ℕ × List String :=
  match setup with
  | .error _ => (1, [])
  | .ok _ =>
    match restore with
    | .error _ => (1, [])
    | .ok _ =>
      match run with
      | .error e => (0, [e])
      | .ok _ => (0, [])

/-- The `paint` closure of `ui` (src/main.rs lines 162-189): for the fixed
80×40 grid, produce the cell stream of (column, row, color) triples in
emission order. -/
def renderCells (app : App) : List (ℕ × ℕ × Color) :=
  let width : ℚ := 80
  let height : ℚ := 40
  let aspect := width / height
  let range := 2 / app.zoom
  let x_min := app.center_x - range * aspect
  let x_max := app.center_x + range * aspect
  let y_min := app.center_y - range
  let y_max := app.center_y + range
  (List.range 80).flatMap fun (i : ℕ) =>
    (List.range 40).map fun (j : ℕ) =>
      let x := x_min + ((i : ℚ) / width) * (x_max - x_min)
      let y := y_min + ((j : ℚ) / height) * (y_max - y_min)
      (i, j, iteration_to_color (mandelbrot_iterations (x, y) app.max_iterations)
        app.max_iterations)

/-- Spec §4.4 step 3, x-coordinate: `x = x_min + (i/width)*(x_max - x_min)`
with `x_min/x_max = center_x ∓ range * aspect_ratio`, `range = 2.0 / zoom`,
`aspect_ratio = width / height = 80 / 40`. -/
def specX (app : App) (i : ℕ) : ℚ :=
  (app.center_x - (2 / app.zoom) * ((80 : ℚ) / 40)) +
    ((i : ℚ) / 80) *
      ((app.center_x + (2 / app.zoom) * ((80 : ℚ) / 40)) -
        (app.center_x - (2 / app.zoom) * ((80 : ℚ) / 40)))

/-- Spec §4.4 step 3, y-coordinate: `y = y_min + (j/height)*(y_max - y_min)`
with `y_min/y_max = center_y ∓ range`, `range = 2.0 / zoom`. -/
def specY (app : App) (j : ℕ) : ℚ :=
  (app.center_y - 2 / app.zoom) +
    ((j : ℚ) / 40) *
      ((app.center_y + 2 / app.zoom) - (app.center_y - 2 / app.zoom))

/-- The eight mutator calls a key press can invoke on the viewport. -/
inductive Action where
  | zoomIn
  | zoomOut
  | moveLeft
  | moveRight
  | moveUp
  | moveDown
  | incIter
  | decIter
deriving DecidableEq, Repr

/-- Apply one mutator to the viewport. -/
def applyAction (a : App) : Action → App
  | .zoomIn => a.zoom_in
  | .zoomOut => a.zoom_out
  | .moveLeft => a.move_left
  | .moveRight => a.move_right
  | .moveUp => a.move_up
  | .moveDown => a.move_down
  | .incIter => a.increase_iterations
  | .decIter => a.decrease_iterations

/-- Run a finite sequence of mutator calls from the default viewport. -/
def runActions (acts : List Action) : App :=
  acts.foldl applyAction appDefault

/-- Complete characterisation of the escape loop: starting the loop at index
`k` with `z = orbit c k` and `fuel` remaining iterations, either no tested `z`
escapes and the loop runs to completion returning `k + fuel`, or it returns
the first index in `[k, k + fuel)` whose `z` has squared magnitude above 4. -/
lemma mandelbrotGo_spec (c : ℚ × ℚ) :
    ∀ fuel k : ℕ,
      (mandelbrotGo c (orbit c k) k fuel = k + fuel ∧
        ∀ j, k ≤ j → j < k + fuel → sqAbs (orbit c j) ≤ 4) ∨
      (∃ j, mandelbrotGo c (orbit c k) k fuel = j ∧ k ≤ j ∧ j < k + fuel ∧
        4 < sqAbs (orbit c j) ∧ ∀ m, k ≤ m → m < j → sqAbs (orbit c m) ≤ 4) := by
  intro fuel
  induction fuel with
  | zero =>
    intro k
    exact Or.inl ⟨rfl, fun j h1 h2 => absurd h2 (by omega)⟩
  | succ fuel ih =>
    intro k
    have hgo : mandelbrotGo c (orbit c k) k (fuel + 1) =
        if 4 < sqAbs (orbit c k) then k
        else mandelbrotGo c (orbit c (k + 1)) (k + 1) fuel := rfl
    by_cases h : 4 < sqAbs (orbit c k)
    · right
      refine ⟨k, ?_, le_refl k, by omega, h, fun m h1 h2 => absurd h2 (by omega)⟩
      rw [hgo, if_pos h]
    · have hgo2 : mandelbrotGo c (orbit c k) k (fuel + 1) =
          mandelbrotGo c (orbit c (k + 1)) (k + 1) fuel := by
        rw [hgo, if_neg h]
      rcases ih (k + 1) with ⟨heq, hall⟩ | ⟨j, hje, hk1, hjlt, hesc, hmin⟩
      · left
        refine ⟨by rw [hgo2, heq]; omega, ?_⟩
        intro j h1 h2
        rcases Nat.eq_or_lt_of_le h1 with rfl | hlt
        · exact le_of_not_lt h
        · exact hall j (by omega) (by omega)
      · right
        refine ⟨j, by rw [hgo2]; exact hje, by omega, by omega, hesc, ?_⟩
        intro m h1 h2
        rcases Nat.eq_or_lt_of_le h1 with rfl | hlt
        · exact le_of_not_lt h
        · exact hmin m (by omega) h2

/-- Claim C2: `mandelbrot_iterations` returns 0 when `max_iter = 0`, returns
exactly `max_iter` when no tested `z` (the value carried over from the
previous step, `orbit c j`) ever exceeds squared magnitude 4 within
`max_iter` steps, and otherwise returns the first 0-based index whose
carried-over `z` exceeds the threshold, the test happening before the update. -/
theorem mandelbrot_iterations_spec (c : ℚ × ℚ) (n : ℕ) :
    (n = 0 → mandelbrot_iterations c n = 0) ∧
    ((∀ j, j < n → sqAbs (orbit c j) ≤ 4) → mandelbrot_iterations c n = n) ∧
    ((mandelbrot_iterations c n = n ∧ ∀ j, j < n → sqAbs (orbit c j) ≤ 4) ∨
      (mandelbrot_iterations c n < n ∧
        4 < sqAbs (orbit c (mandelbrot_iterations c n)) ∧
        ∀ j, j < mandelbrot_iterations c n → sqAbs (orbit c j) ≤ 4)) := by
  have hdef : mandelbrot_iterations c n = mandelbrotGo c (orbit c 0) 0 n := rfl
  rcases mandelbrotGo_spec c n 0 with ⟨heq, hall⟩ | ⟨j, hje, hk0, hjlt, hesc, hmin⟩
  · have hr : mandelbrot_iterations c n = n := by rw [hdef, heq]; omega
    refine ⟨fun h0 => by omega, fun _ => hr, Or.inl ⟨hr, ?_⟩⟩
    intro j h1
    exact hall j (by omega) (by omega)
  · have hr : mandelbrot_iterations c n = j := by rw [hdef]; exact hje
    refine ⟨fun h0 => by omega, ?_, Or.inr ⟨by omega, by rw [hr]; exact hesc, ?_⟩⟩
    · intro hall
      exact absurd hesc (not_lt.2 (hall j (by omega)))
    · intro m hm
      exact hmin m (by omega) (by omega)

/-- Concrete instance of `mandelbrot_iterations_spec`, with its hypotheses
discharged at explicit inputs. -/
theorem mandelbrot_iterations_spec_witness :
    mandelbrot_iterations ((7 : ℚ), (0 : ℚ)) 0 = 0 ∧
    mandelbrot_iterations ((0 : ℚ), (0 : ℚ)) 2 = 2 :=
  ⟨(mandelbrot_iterations_spec ((7 : ℚ), (0 : ℚ)) 0).1 rfl,
    (mandelbrot_iterations_spec ((0 : ℚ), (0 : ℚ)) 2).2.1 (by
      intro j hj
      interval_cases j <;> norm_num [orbit, mstep, sqAbs])⟩

/-- The orbit of the origin is constantly the origin. -/
lemma orbit_origin (j : ℕ) : orbit ((0 : ℚ), (0 : ℚ)) j = ((0 : ℚ), (0 : ℚ)) := by
  induction j with
  | zero => rfl
  | succ n ih =>
    simp only [orbit, ih, mstep]
    norm_num

/-- Claim C8: any point whose squared magnitude exceeds 4 escapes in fewer
than 100 iterations, while the origin exhausts the full budget of 100. -/
theorem escape_outside_radius (c : ℚ × ℚ) (h : 4 < c.1 * c.1 + c.2 * c.2) :
    mandelbrot_iterations c 100 < 100 ∧
    mandelbrot_iterations ((0 : ℚ), (0 : ℚ)) 100 = 100 := by
  constructor
  · have horb1 : sqAbs (orbit c 1) = c.1 * c.1 + c.2 * c.2 := by
      simp [orbit, mstep, sqAbs]
    rcases mandelbrotGo_spec c 100 0 with ⟨_, hall⟩ | ⟨j, hje, _, hjlt, _, _⟩
    · have := hall 1 (by omega) (by omega)
      rw [horb1] at this
      linarith
    · have hr : mandelbrot_iterations c 100 = j := hje
      omega
  · rcases mandelbrotGo_spec ((0 : ℚ), (0 : ℚ)) 100 0 with ⟨heq, _⟩ | ⟨j, _, _, _, hesc, _⟩
    · have hr : mandelbrot_iterations ((0 : ℚ), (0 : ℚ)) 100 =
          mandelbrotGo ((0 : ℚ), (0 : ℚ)) (orbit ((0 : ℚ), (0 : ℚ)) 0) 0 100 := rfl
      rw [hr, heq]
    · rw [orbit_origin] at hesc
      norm_num [sqAbs] at hesc

/-- Concrete instance of `escape_outside_radius` at the spec's example point
`(2.0, 2.0)`. -/
theorem escape_outside_radius_witness :
    mandelbrot_iterations ((2 : ℚ), (2 : ℚ)) 100 < 100 ∧
    mandelbrot_iterations ((0 : ℚ), (0 : ℚ)) 100 = 100 :=
  escape_outside_radius ((2 : ℚ), (2 : ℚ)) (by norm_num)

/-- The executable `Rat.floor` agrees with the mathematical floor. -/
lemma rat_floor_eq_intFloor (q : ℚ) : Rat.floor q = ⌊q⌋ := by
  rw [Rat.floor_def', Rat.floor_def]

/-- The bucket of iteration count 0 is 0, for any budget (for budget 0 the
`0.0 / 0.0` NaN casts to 0). -/
lemma bucket_zero (m : ℕ) : bucket 0 m = 0 := by
  unfold bucket scaledRatio f64ToU32
  rcases eq_or_ne m 0 with rfl | hm
  · norm_num
  · norm_num [hm, rat_floor_eq_intFloor]

/-- Off the equality branch, the classifier is palette lookup by bucket,
with white as the out-of-range default. -/
lemma iteration_to_color_ne (i m : ℕ) (h : i ≠ m) :
    iteration_to_color i m = palette.getD (bucket i m) Color.white := by
  obtain ⟨b, hb⟩ : ∃ b, bucket i m = b := ⟨_, rfl⟩
  have hb2 : f64ToU32 (scaledRatio i m) = b := hb
  unfold iteration_to_color
  rw [if_neg h, hb]
  simp only [hb2]
  rcases b with _ | _ | _ | _ | _ | _ | _ | _ | b <;> rfl

/-- No bucket of the palette lookup is black. -/
lemma palette_getD_ne_black (b : ℕ) : palette.getD b Color.white ≠ Color.black := by
  rcases b with _ | _ | _ | _ | _ | _ | _ | _ | b <;> simp [palette, List.getD]

/-- The classifier answers black exactly on the equality branch. -/
lemma iteration_to_color_black_iff (i m : ℕ) :
    iteration_to_color i m = Color.black ↔ i = m := by
  constructor
  · intro h
    by_contra hne
    rw [iteration_to_color_ne i m hne] at h
    exact palette_getD_ne_black _ h
  · intro h
    subst h
    simp [iteration_to_color]

/-- Claim C3: black exactly when `iterations = max_iterations`; otherwise the
color is the palette entry at bucket `⌊(iterations / max_iterations) * 8⌋`
in the fixed order blue, light-blue, cyan, green, yellow, light-red, red,
magenta, with white for any bucket of 8 or more; and the classifier maps
`(0, 100)` to the first palette color, blue. -/
theorem iteration_to_color_spec (i m : ℕ) :
    (iteration_to_color i m = Color.black ↔ i = m) ∧
    (i ≠ m → iteration_to_color i m = palette.getD (bucket i m) Color.white) ∧
    iteration_to_color 0 100 = Color.blue :=
  ⟨iteration_to_color_black_iff i m, fun h => iteration_to_color_ne i m h, by
    rw [iteration_to_color_ne 0 100 (by decide), bucket_zero]
    rfl⟩

/-- Concrete instance of `iteration_to_color_spec`, with its hypotheses
discharged at explicit inputs. -/
theorem iteration_to_color_spec_witness :
    (iteration_to_color 3 100 = Color.black ↔ (3 : ℕ) = 100) ∧
    ((3 : ℕ) ≠ 100 → iteration_to_color 3 100 = palette.getD (bucket 3 100) Color.white) ∧
    iteration_to_color 0 100 = Color.blue :=
  iteration_to_color_spec 3 100

/-- A zero budget with a nonzero iteration count drives the cast to
`u32::MAX` through the `+inf` path. -/
lemma bucket_div_zero (i : ℕ) (h : i ≠ 0) : bucket i 0 = u32Max := by
  unfold bucket scaledRatio f64ToU32
  simp [h]

/-- Claim C10: the classifier is total: on the equality branch it returns
black (even at `max_iterations = 0`, where no division is reached), and in
every other case, including `iterations > max_iterations`, it returns one of
the nine palette colors, with white whenever the bucket is 8 or more — in
particular at `max_iterations = 0`, where the division by zero gives `+inf`,
the cast saturates to `u32::MAX` and the color is the white fallback. -/
theorem iteration_to_color_total (i m : ℕ) :
    (i = m → iteration_to_color i m = Color.black) ∧
    (i ≠ m →
      iteration_to_color i m ∈
        [Color.blue, Color.lightBlue, Color.cyan, Color.green, Color.yellow,
          Color.lightRed, Color.red, Color.magenta, Color.white]) ∧
    (i ≠ m → 8 ≤ bucket i m → iteration_to_color i m = Color.white) ∧
    (i ≠ 0 → iteration_to_color i 0 = Color.white) ∧
    iteration_to_color 0 0 = Color.black := by
  have hwhite : ∀ a b : ℕ, a ≠ b → 8 ≤ bucket a b → iteration_to_color a b = Color.white := by
    intro a b hab h8
    rw [iteration_to_color_ne a b hab]
    rw [List.getD_eq_default]
    simpa [palette] using h8
  refine ⟨?_, ?_, hwhite i m, ?_, by decide⟩
  · intro h
    subst h
    simp [iteration_to_color]
  · intro h
    rw [iteration_to_color_ne i m h]
    generalize bucket i m = b
    rcases b with _ | _ | _ | _ | _ | _ | _ | _ | b <;> simp [palette, List.getD]
  · intro h0
    refine hwhite i 0 h0 ?_
    rw [bucket_div_zero i h0]
    norm_num [u32Max]

/-- Concrete instance of `iteration_to_color_total`, with its hypotheses
discharged at explicit inputs; `iteration_to_color 7 0` exercises the
division-by-zero path (`iterations > max_iterations` with
`max_iterations = 0`), which saturates to the white fallback. -/
theorem iteration_to_color_total_witness :
    iteration_to_color 7 7 = Color.black ∧
    iteration_to_color 7 0 ∈
      [Color.blue, Color.lightBlue, Color.cyan, Color.green, Color.yellow,
        Color.lightRed, Color.red, Color.magenta, Color.white] ∧
    iteration_to_color 7 0 = Color.white :=
  ⟨(iteration_to_color_total 7 7).1 rfl,
    (iteration_to_color_total 7 0).2.1 (by decide),
    (iteration_to_color_total 7 0).2.2.2.1 (by decide)⟩

/-- Each mutator preserves the viewport invariant
`0 < zoom ∧ 20 ≤ max_iterations ≤ 500`. -/
lemma applyAction_inv {a : App} (act : Action) (hz : 0 < a.zoom)
    (hl : 20 ≤ a.max_iterations) (hu : a.max_iterations ≤ 500) :
    0 < (applyAction a act).zoom ∧ 20 ≤ (applyAction a act).max_iterations ∧
      (applyAction a act).max_iterations ≤ 500 := by
  have h32 : (2 : ℕ) ^ 32 = 4294967296 := by norm_num
  cases act with
  | zoomIn => exact ⟨mul_pos hz (by norm_num), hl, hu⟩
  | zoomOut => exact ⟨div_pos hz (by norm_num), hl, hu⟩
  | moveLeft => exact ⟨hz, hl, hu⟩
  | moveRight => exact ⟨hz, hl, hu⟩
  | moveUp => exact ⟨hz, hl, hu⟩
  | moveDown => exact ⟨hz, hl, hu⟩
  | incIter =>
    have hmod : (a.max_iterations + 20) % u32Mod = a.max_iterations + 20 :=
      Nat.mod_eq_of_lt (by simp only [u32Mod, h32]; omega)
    refine ⟨hz, ?_, ?_⟩ <;>
      · simp only [applyAction, App.increase_iterations, hmod, Nat.min_def]
        split <;> omega
  | decIter =>
    refine ⟨hz, ?_, ?_⟩ <;>
      · simp only [applyAction, App.decrease_iterations, Nat.max_def]
        split <;> omega

/-- The invariant is preserved along any fold of mutator calls. -/
lemma foldl_applyAction_inv (acts : List Action) :
    ∀ a : App, 0 < a.zoom → 20 ≤ a.max_iterations → a.max_iterations ≤ 500 →
      0 < (acts.foldl applyAction a).zoom ∧
        20 ≤ (acts.foldl applyAction a).max_iterations ∧
        (acts.foldl applyAction a).max_iterations ≤ 500 := by
  induction acts with
  | nil => exact fun a hz hl hu => ⟨hz, hl, hu⟩
  | cons x xs ih =>
    intro a hz hl hu
    obtain ⟨h1, h2, h3⟩ := applyAction_inv x hz hl hu
    exact ih _ h1 h2 h3

/-- Claim C4: after any finite sequence of mutator calls starting from the
default viewport, `zoom` is strictly positive and `max_iterations` stays
within `[20, 500]`. -/
theorem viewport_invariant (acts : List Action) :
    0 < (runActions acts).zoom ∧ 20 ≤ (runActions acts).max_iterations ∧
      (runActions acts).max_iterations ≤ 500 :=
  foldl_applyAction_inv acts appDefault (by norm_num [appDefault]) (by decide) (by decide)

/-- Claim C5: `increase_iterations` is `min (· + 20) 500`,
`decrease_iterations` is `max (· - 20) 20` with saturating subtraction, so 20
is a fixed point of the decrease and 500 of the increase.  The hypothesis is
the data-model bound on the `max_iterations` field (spec §3), under which the
`u32` addition cannot wrap. -/
theorem iteration_mutators_spec (a : App) (h : a.max_iterations ≤ 500) :
    a.increase_iterations.max_iterations = min (a.max_iterations + 20) 500 ∧
    a.decrease_iterations.max_iterations = max (a.max_iterations - 20) 20 ∧
    (a.max_iterations = 20 → a.decrease_iterations.max_iterations = 20) ∧
    (a.max_iterations = 500 → a.increase_iterations.max_iterations = 500) := by
  have h32 : (2 : ℕ) ^ 32 = 4294967296 := by norm_num
  have hmod : (a.max_iterations + 20) % u32Mod = a.max_iterations + 20 :=
    Nat.mod_eq_of_lt (by simp only [u32Mod, h32]; omega)
  refine ⟨?_, ?_, fun h20 => ?_, fun h500 => ?_⟩
  · simp only [App.increase_iterations, hmod]
  · rfl
  · simp only [App.decrease_iterations, h20]
    decide
  · simp only [App.increase_iterations, u32Mod, h500]
    decide

/-- Concrete instance of `iteration_mutators_spec` at the default viewport. -/
theorem iteration_mutators_spec_witness :
    appDefault.increase_iterations.max_iterations =
      min (appDefault.max_iterations + 20) 500 ∧
    appDefault.decrease_iterations.max_iterations =
      max (appDefault.max_iterations - 20) 20 ∧
    (appDefault.max_iterations = 20 → appDefault.decrease_iterations.max_iterations = 20) ∧
    (appDefault.max_iterations = 500 → appDefault.increase_iterations.max_iterations = 500) :=
  iteration_mutators_spec appDefault (by decide)

/-- Claim C9: three `zoom_in` calls from the default viewport give zoom
exactly `3.375 = 1.5³`, and a following `move_left` gives
`center_x = -0.5 - 0.1 / 3.375`. -/
theorem zoom_pan_scenario :
    appDefault.zoom_in.zoom_in.zoom_in.zoom = 3.375 ∧
    (3.375 : ℚ) = 1.5 ^ 3 ∧
    appDefault.zoom_in.zoom_in.zoom_in.move_left.center_x = -0.5 - 0.1 / 3.375 := by
  refine ⟨?_, by norm_num, ?_⟩ <;>
    norm_num [appDefault, App.zoom_in, App.move_left]

set_option maxHeartbeats 2000000 in
/-- Claim C6: the key dispatch of `run_app` maps exactly the documented keys
to their mutators, `q` to quitting with success, leaves the viewport
unchanged and the loop running on any other key, and ignores non-key
events. -/
theorem dispatch_spec (app : App) (c : Char)
    (hc : c ∉ ['q', '+', '=', '-', 'h', 'l', 'k', 'j', 'i', 'd']) :
    handleEvent app (.key (.char 'q')) = .quit ∧
    handleEvent app (.key (.char '+')) = .running app.zoom_in ∧
    handleEvent app (.key (.char '=')) = .running app.zoom_in ∧
    handleEvent app (.key (.char '-')) = .running app.zoom_out ∧
    handleEvent app (.key .left) = .running app.move_left ∧
    handleEvent app (.key (.char 'h')) = .running app.move_left ∧
    handleEvent app (.key .right) = .running app.move_right ∧
    handleEvent app (.key (.char 'l')) = .running app.move_right ∧
    handleEvent app (.key .up) = .running app.move_up ∧
    handleEvent app (.key (.char 'k')) = .running app.move_up ∧
    handleEvent app (.key .down) = .running app.move_down ∧
    handleEvent app (.key (.char 'j')) = .running app.move_down ∧
    handleEvent app (.key (.char 'i')) = .running app.increase_iterations ∧
    handleEvent app (.key (.char 'd')) = .running app.decrease_iterations ∧
    handleEvent app (.key (.char c)) = .running app ∧
    handleEvent app (.key .other) = .running app ∧
    handleEvent app .nonKey = .running app := by
  refine ⟨rfl, rfl, rfl, rfl, rfl, rfl, rfl, rfl, rfl, rfl, rfl, rfl, rfl, rfl,
    ?_, rfl, rfl⟩
  simp only [List.mem_cons, List.not_mem_nil, or_false, not_or] at hc
  obtain ⟨h1, h2, h3, h4, h5, h6, h7, h8, h9, h10⟩ := hc
  simp only [handleEvent]
  unfold handleKey
  split <;> simp_all

/-- Concrete instance of `dispatch_spec` at the default viewport with the
unrecognized key `x`. -/
theorem dispatch_spec_witness :
    handleEvent appDefault (.key (.char 'q')) = .quit ∧
    handleEvent appDefault (.key (.char '+')) = .running appDefault.zoom_in ∧
    handleEvent appDefault (.key (.char '=')) = .running appDefault.zoom_in ∧
    handleEvent appDefault (.key (.char '-')) = .running appDefault.zoom_out ∧
    handleEvent appDefault (.key .left) = .running appDefault.move_left ∧
    handleEvent appDefault (.key (.char 'h')) = .running appDefault.move_left ∧
    handleEvent appDefault (.key .right) = .running appDefault.move_right ∧
    handleEvent appDefault (.key (.char 'l')) = .running appDefault.move_right ∧
    handleEvent appDefault (.key .up) = .running appDefault.move_up ∧
    handleEvent appDefault (.key (.char 'k')) = .running appDefault.move_up ∧
    handleEvent appDefault (.key .down) = .running appDefault.move_down ∧
    handleEvent appDefault (.key (.char 'j')) = .running appDefault.move_down ∧
    handleEvent appDefault (.key (.char 'i')) = .running appDefault.increase_iterations ∧
    handleEvent appDefault (.key (.char 'd')) = .running appDefault.decrease_iterations ∧
    handleEvent appDefault (.key (.char 'x')) = .running appDefault ∧
    handleEvent appDefault (.key .other) = .running appDefault ∧
    handleEvent appDefault .nonKey = .running appDefault :=
  dispatch_spec appDefault 'x' (by decide)

/-- Claim C7: every cell `(i, j)` of the 80×40 grid appears in the rendered
cell stream with the color obtained by classifying the escape time of the
plane point given by the spec formulas (`specX`, `specY`), and conversely
every emitted cell is of that form. -/
theorem render_grid_spec (app : App) (i j : ℕ) (hi : i < 80) (hj : j < 40) :
    (i, j, iteration_to_color
        (mandelbrot_iterations (specX app i, specY app j) app.max_iterations)
        app.max_iterations) ∈ renderCells app ∧
    ∀ t ∈ renderCells app, t.1 < 80 ∧ t.2.1 < 40 ∧
      t.2.2 = iteration_to_color
        (mandelbrot_iterations (specX app t.1, specY app t.2.1) app.max_iterations)
        app.max_iterations := by
  constructor
  · simp only [renderCells, List.mem_flatMap, List.mem_map, List.mem_range]
    exact ⟨i, hi, j, hj, by simp [specX, specY]⟩
  · intro t ht
    simp only [renderCells, List.mem_flatMap, List.mem_map, List.mem_range] at ht
    obtain ⟨a, ha, b, hb, hab⟩ := ht
    subst hab
    exact ⟨ha, hb, by simp [specX, specY]⟩

/-- Concrete instance of `render_grid_spec` at the default viewport and cell
`(0, 0)`. -/
theorem render_grid_spec_witness :
    ((0 : ℕ), (0 : ℕ), iteration_to_color
        (mandelbrot_iterations (specX appDefault 0, specY appDefault 0)
          appDefault.max_iterations)
        appDefault.max_iterations) ∈ renderCells appDefault ∧
    ∀ t ∈ renderCells appDefault, t.1 < 80 ∧ t.2.1 < 40 ∧
      t.2.2 = iteration_to_color
        (mandelbrot_iterations (specX appDefault t.1, specY appDefault t.2.1)
          appDefault.max_iterations)
        appDefault.max_iterations :=
  render_grid_spec appDefault 0 0 (by decide) (by decide)

/-- Claim C1 (divergence witness): with setup and restoration succeeding, a
clean quit exits with code 0 printing nothing; but when the control loop
fails with an I/O error, `main` prints the error after restoring the
terminal and still returns `Ok(())`, so the process exits with code 0 — not
the non-zero exit the spec requires. -/
theorem main_exit_code_eval :
    mainModel (.ok ()) (.ok ()) (.ok ()) = (0, []) ∧
    mainModel (.ok ()) (.error "io error") (.ok ()) = (0, ["io error"]) :=
  ⟨rfl, rfl⟩

end Mandelbrot
